import Mathlib

/-!
Shallow embedding of the bank recovery simulator in `MVP_RP.py`.

Real-valued quantities are modelled by `ℚ`.  The asset book has the four
fixed categories of the source (`Cash`, `HQLA`, `Loans`, `RealEstate`),
the liability book the two categories `Deposits` and `Wholesale`.  The
simulation rolls the balance sheet forward over a list of withdrawals,
liquidating assets in priority order and stopping at the first period in
which the survival trigger fires.
-/

/-- The closed set of asset categories of the source. -/
inductive AssetCat : Type
  | Cash
  | HQLA
  | Loans
  | RealEstate
deriving DecidableEq, Fintype

/-- Asset book: one quantity per asset category (the dict `A` of the source). -/
structure AssetBook : Type where
  Cash : ℚ
  HQLA : ℚ
  Loans : ℚ
  RealEstate : ℚ
deriving DecidableEq

/-- Liability book: the dict `L` of the source. -/
structure LiabilityBook : Type where
  Deposits : ℚ
  Wholesale : ℚ
deriving DecidableEq

/-- Haircut table: the dict `haircuts` of the source (its `Cash` entry is the
hard-coded `0.0` of line 33, kept as a field so lookups mirror the dict). -/
structure HaircutTable : Type where
  Cash : ℚ
  HQLA : ℚ
  Loans : ℚ
  RealEstate : ℚ
deriving DecidableEq

/-- Dictionary lookup `A[asset]`. -/
def AssetBook.get (A : AssetBook) : AssetCat → ℚ
  | .Cash => A.Cash
  | .HQLA => A.HQLA
  | .Loans => A.Loans
  | .RealEstate => A.RealEstate

/-- Dictionary update `A[asset] = v`. -/
def AssetBook.set (A : AssetBook) : AssetCat → ℚ → AssetBook
  | .Cash, v => { A with Cash := v }
  | .HQLA, v => { A with HQLA := v }
  | .Loans, v => { A with Loans := v }
  | .RealEstate, v => { A with RealEstate := v }

/-- Dictionary lookup `haircuts[asset]`. -/
def HaircutTable.get (hc : HaircutTable) : AssetCat → ℚ
  | .Cash => hc.Cash
  | .HQLA => hc.HQLA
  | .Loans => hc.Loans
  | .RealEstate => hc.RealEstate

/-- `sum(A.values())`. -/
def totalAssets (A : AssetBook) : ℚ :=
  A.Cash + A.HQLA + A.Loans + A.RealEstate

/-- `sum(L.values())`. -/
def totalLiabilities (L : LiabilityBook) : ℚ :=
  L.Deposits + L.Wholesale

/-- `equity(A,L)` of the source: total assets minus total liabilities. -/
def equity (A : AssetBook) (L : LiabilityBook) : ℚ :=
  totalAssets A - totalLiabilities L

/-- `LCR(A,outflow)` of the source: liquid stock over `max(outflow,1)`. -/
def LCR (hc : HaircutTable) (A : AssetBook) (outflow : ℚ) : ℚ :=
  (A.Cash + A.HQLA * (1 - hc.HQLA)) / max outflow 1

/-- All asset quantities of the book are non-negative. -/
def AssetBook.nonneg (A : AssetBook) : Prop :=
  0 ≤ A.Cash ∧ 0 ≤ A.HQLA ∧ 0 ≤ A.Loans ∧ 0 ≤ A.RealEstate

instance (A : AssetBook) : Decidable A.nonneg := by
  unfold AssetBook.nonneg; infer_instance

/-- The per-period liquidation loop (`for asset in priority`, lines 102-114):
walk the priority list, stop once the need is `≤ 0`, and for each visited
category sell `min(avail, need/(1-h))`, removing the sold quantity from the
book and the net proceeds from the need. -/
def liquidate (hc : HaircutTable) : AssetBook → ℚ → List AssetCat → AssetBook × ℚ
  | A, need, [] => (A, need)
  | A, need, asset :: rest =>
    if need ≤ 0 then (A, need)
    else
      let avail := A.get asset
      let h := hc.get asset
      let sell := min avail (need / (1 - h))
      liquidate hc (A.set asset (avail - sell)) (need - sell * (1 - h)) rest

/-- Realized haircut loss of one liquidation pass.  Modelled from the spec:
the source loop does not accumulate a loss variable, so the loss
`realizedLoss += sell * haircut` documented for the Liquidation Engine is
recomputed here along the same recursion as `liquidate`. -/
def liqLoss (hc : HaircutTable) : AssetBook → ℚ → List AssetCat → ℚ
  | _, _, [] => 0
  | A, need, asset :: rest =>
    if need ≤ 0 then 0
    else
      let avail := A.get asset
      let h := hc.get asset
      let sell := min avail (need / (1 - h))
      sell * h + liqLoss hc (A.set asset (avail - sell)) (need - sell * (1 - h)) rest

/-- The balance-sheet move of one period (lines 96-114): deposits fall by the
withdrawal and the liquidation loop covers the cash need `w`. -/
def step (hc : HaircutTable) (priority : List AssetCat)
    (AL : AssetBook × LiabilityBook) (w : ℚ) : AssetBook × LiabilityBook :=
  ((liquidate hc AL.1 w priority).1,
   { AL.2 with Deposits := AL.2.Deposits - w })

/-- The survival trigger of line 128: `e <= 0 or lcr < 1`, evaluated on the
post-liquidation books with the withdrawal of the period as the LCR outflow. -/
def breachB (hc : HaircutTable) (AL : AssetBook × LiabilityBook) (w : ℚ) : Bool :=
  decide (equity AL.1 AL.2 ≤ 0 ∨ LCR hc AL.1 w < 1)

/-- One row of `bs_history`: `{**A, **L, "Equity": equity(A,L)}`. -/
structure Snapshot : Type where
  Cash : ℚ
  HQLA : ℚ
  Loans : ℚ
  RealEstate : ℚ
  Deposits : ℚ
  Wholesale : ℚ
  Equity : ℚ
deriving DecidableEq

/-- Build the snapshot recorded for the current books. -/
def mkSnap (A : AssetBook) (L : LiabilityBook) : Snapshot :=
  ⟨A.Cash, A.HQLA, A.Loans, A.RealEstate, L.Deposits, L.Wholesale, equity A L⟩

/-- Asset entry of a snapshot, by category. -/
def Snapshot.getAsset (s : Snapshot) : AssetCat → ℚ
  | .Cash => s.Cash
  | .HQLA => s.HQLA
  | .Loans => s.Loans
  | .RealEstate => s.RealEstate

/-- Default snapshot used only as the fallback of list indexing. -/
def dfltSnap : Snapshot := ⟨0, 0, 0, 0, 0, 0, 0⟩

/-- The period loop (lines 94-130): starting at period index `t`, process each
withdrawal in turn, record the closing snapshot, and stop with survival
period `t` as soon as the trigger fires. -/
def simAux (hc : HaircutTable) (priority : List AssetCat) :
    AssetBook → LiabilityBook → ℕ → List ℚ → List Snapshot × Option ℕ
  | _, _, _, [] => ([], none)
  | A, L, t, w :: ws =>
    let AL := step hc priority (A, L) w
    let snap := mkSnap AL.1 AL.2
    if breachB hc AL w then
      ([snap], some t)
    else
      let r := simAux hc priority AL.1 AL.2 (t + 1) ws
      (snap :: r.1, r.2)

/-- Result of a run: the ordered snapshot history (Period 0 first) and the
optional survival period. -/
structure SimulationResult : Type where
  history : List Snapshot
  survival : Option ℕ
deriving DecidableEq

/-- The whole simulation block (lines 77-130): record the opening Period 0
snapshot, then run the period loop with `enumerate(withdrawals, 1)`. -/
def simulate (hc : HaircutTable) (priority : List AssetCat)
    (A0 : AssetBook) (L0 : LiabilityBook) (withdrawals : List ℚ) : SimulationResult :=
  ⟨mkSnap A0 L0 :: (simAux hc priority A0 L0 1 withdrawals).1,
   (simAux hc priority A0 L0 1 withdrawals).2⟩

/-- Books as they stand after the first `s` periods, had the loop not
stopped - the reference state sequence used to phrase first-breach facts. -/
def stateAfter (hc : HaircutTable) (priority : List AssetCat)
    (AL : AssetBook × LiabilityBook) (ws : List ℚ) (s : ℕ) : AssetBook × LiabilityBook :=
  (ws.take s).foldl (step hc priority) AL

/-- Whether the survival trigger fires at period `s` (1-based) of the
reference state sequence. -/
def breachAt (hc : HaircutTable) (priority : List AssetCat)
    (AL : AssetBook × LiabilityBook) (ws : List ℚ) (s : ℕ) : Bool :=
  breachB hc (stateAfter hc priority AL ws s) (ws.getD (s - 1) 0)

/-- Opening assets of concrete scenario A (the sidebar defaults of the source). -/
def scnA_assets : AssetBook := ⟨100, 200, 400, 200⟩

/-- Opening liabilities of concrete scenario A. -/
def scnA_liabs : LiabilityBook := ⟨600, 150⟩

/-- Haircuts of concrete scenario A (slider defaults 0.05, 0.25, 0.35). -/
def scnA_haircuts : HaircutTable := ⟨0, 1/20, 1/4, 7/20⟩

/-- Liquidation priority of concrete scenario A. -/
def scnA_priority : List AssetCat := [.Cash, .HQLA, .Loans, .RealEstate]

/-- Withdrawal sequence of concrete scenario A. -/
def scnA_withdrawals : List ℚ := [50, 80, 120]

/-! ### Basic lemmas on books -/

theorem AssetBook.get_set (A : AssetBook) (a c : AssetCat) (v : ℚ) :
    (A.set a v).get c = if c = a then v else A.get c := by
  cases a <;> cases c <;> simp [AssetBook.set, AssetBook.get]

theorem totalAssets_set (A : AssetBook) (a : AssetCat) (s : ℚ) :
    totalAssets (A.set a (A.get a - s)) = totalAssets A - s := by
  cases a <;> simp [AssetBook.set, AssetBook.get, totalAssets] <;> ring

theorem AssetBook.set_nonneg {A : AssetBook} (hA : A.nonneg) {a : AssetCat} {v : ℚ}
    (hv : 0 ≤ v) : (A.set a v).nonneg := by
  obtain ⟨h1, h2, h3, h4⟩ := hA
  cases a <;> exact ⟨by assumption, by assumption, by assumption, by assumption⟩

/-! ### Lemmas on the liquidation loop -/

theorem liquidate_nonneg (hc : HaircutTable) (pr : List AssetCat) :
    ∀ (A : AssetBook) (need : ℚ), A.nonneg → ((liquidate hc A need pr).1).nonneg := by
  induction pr with
  | nil => intro A need hA; exact hA
  | cons a rest ih =>
    intro A need hA
    rw [liquidate]
    by_cases hneed : need ≤ 0
    · simpa [hneed] using hA
    · simp only [if_neg hneed]
      exact ih _ _ (AssetBook.set_nonneg hA (sub_nonneg.2 (min_le_left _ _)))

theorem liquidate_frame (hc : HaircutTable) (c : AssetCat) :
    ∀ (pr : List AssetCat) (A : AssetBook) (need : ℚ), c ∉ pr →
      ((liquidate hc A need pr).1).get c = A.get c := by
  intro pr
  induction pr with
  | nil => intro A need _; rfl
  | cons a rest ih =>
    intro A need hnc
    have hca : c ≠ a := fun h => hnc (h ▸ List.mem_cons_self a rest)
    have hcr : c ∉ rest := fun h => hnc (List.mem_cons_of_mem a h)
    rw [liquidate]
    by_cases hneed : need ≤ 0
    · simp [hneed]
    · simp only [if_neg hneed]
      rw [ih _ _ hcr, AssetBook.get_set, if_neg hca]

theorem liquidate_total (hc : HaircutTable) (pr : List AssetCat) :
    ∀ (A : AssetBook) (need : ℚ),
      totalAssets (liquidate hc A need pr).1 =
        totalAssets A - liqLoss hc A need pr - (need - (liquidate hc A need pr).2) := by
  induction pr with
  | nil => intro A need; simp [liquidate, liqLoss]
  | cons a rest ih =>
    intro A need
    rw [liquidate, liqLoss]
    by_cases hneed : need ≤ 0
    · simp [hneed]
    · simp only [if_neg hneed]
      rw [ih, totalAssets_set]
      ring

/-! ### Lemmas on the period loop -/

theorem simAux_survival_ge (hc : HaircutTable) (pr : List AssetCat) :
    ∀ (ws : List ℚ) (A : AssetBook) (L : LiabilityBook) (t j : ℕ),
      (simAux hc pr A L t ws).2 = some j → t ≤ j := by
  intro ws
  induction ws with
  | nil => intro A L t j h; simp [simAux] at h
  | cons w ws ih =>
    intro A L t j h
    rw [simAux] at h
    cases hb : breachB hc (step hc pr (A, L) w) w with
    | true => simp [hb] at h; omega
    | false =>
      simp [hb] at h
      exact Nat.le_of_succ_le (ih _ _ _ _ h)

theorem stateAfter_zero (hc : HaircutTable) (pr : List AssetCat)
    (AL : AssetBook × LiabilityBook) (ws : List ℚ) :
    stateAfter hc pr AL ws 0 = AL := rfl

theorem stateAfter_cons (hc : HaircutTable) (pr : List AssetCat)
    (AL : AssetBook × LiabilityBook) (w : ℚ) (ws : List ℚ) (s : ℕ) :
    stateAfter hc pr AL (w :: ws) (s + 1) = stateAfter hc pr (step hc pr AL w) ws s := by
  simp [stateAfter, List.take_succ_cons]

theorem stateAfter_succ (hc : HaircutTable) (pr : List AssetCat) :
    ∀ (ws : List ℚ) (AL : AssetBook × LiabilityBook) (s : ℕ), s < ws.length →
      stateAfter hc pr AL ws (s + 1) =
        step hc pr (stateAfter hc pr AL ws s) (ws.getD s 0) := by
  intro ws
  induction ws with
  | nil => intro AL s h; simp at h
  | cons w ws ih =>
    intro AL s hs
    cases s with
    | zero => simp [stateAfter_cons, stateAfter_zero]
    | succ m =>
      rw [stateAfter_cons, stateAfter_cons, ih _ m (by simpa using hs)]
      simp

theorem breachAt_one (hc : HaircutTable) (pr : List AssetCat)
    (AL : AssetBook × LiabilityBook) (w : ℚ) (ws : List ℚ) :
    breachAt hc pr AL (w :: ws) 1 = breachB hc (step hc pr AL w) w := by
  simp [breachAt, stateAfter_cons, stateAfter_zero]

theorem breachAt_shift (hc : HaircutTable) (pr : List AssetCat)
    (AL : AssetBook × LiabilityBook) (w : ℚ) (ws : List ℚ) (s : ℕ) (hs : 1 ≤ s) :
    breachAt hc pr AL (w :: ws) (s + 1) = breachAt hc pr (step hc pr AL w) ws s := by
  obtain ⟨m, rfl⟩ : ∃ m, s = m + 1 := ⟨s - 1, by omega⟩
  simp [breachAt, stateAfter_cons]

theorem simAux_none (hc : HaircutTable) (pr : List AssetCat) :
    ∀ (ws : List ℚ) (A : AssetBook) (L : LiabilityBook) (t : ℕ),
      (simAux hc pr A L t ws).2 = none →
      (simAux hc pr A L t ws).1.length = ws.length ∧
      ∀ s, 1 ≤ s → s ≤ ws.length → breachAt hc pr (A, L) ws s = false := by
  intro ws
  induction ws with
  | nil => intro A L t _; exact ⟨rfl, fun s h1 h2 => by simp at h2; omega⟩
  | cons w ws ih =>
    intro A L t hnone
    rw [simAux] at hnone ⊢
    cases hb : breachB hc (step hc pr (A, L) w) w with
    | true => simp [hb] at hnone
    | false =>
      simp only [hb] at hnone ⊢
      simp only [Bool.false_eq_true, if_false] at hnone ⊢
      obtain ⟨hlen, hbr⟩ := ih _ _ _ hnone
      refine ⟨by simp [hlen], ?_⟩
      intro s hs1 hs2
      match s, hs1 with
      | 1, _ => rw [breachAt_one]; exact hb
      | (m + 2), _ =>
        rw [breachAt_shift hc pr (A, L) w ws (m + 1) (by omega)]
        exact hbr (m + 1) (by omega) (by simpa using hs2)

theorem simAux_some (hc : HaircutTable) (pr : List AssetCat) :
    ∀ (ws : List ℚ) (A : AssetBook) (L : LiabilityBook) (t k : ℕ),
      (simAux hc pr A L t ws).2 = some (t + k) →
      k < ws.length ∧
      (simAux hc pr A L t ws).1.length = k + 1 ∧
      breachAt hc pr (A, L) ws (k + 1) = true ∧
      ∀ s, 1 ≤ s → s ≤ k → breachAt hc pr (A, L) ws s = false := by
  intro ws
  induction ws with
  | nil => intro A L t k h; simp [simAux] at h
  | cons w ws ih =>
    intro A L t k h
    rw [simAux] at h ⊢
    cases hb : breachB hc (step hc pr (A, L) w) w with
    | true =>
      simp only [hb, if_true] at h ⊢
      have hk : k = 0 := by simp at h; omega
      subst hk
      refine ⟨by simp, by simp, ?_, fun s h1 h2 => by omega⟩
      rw [breachAt_one]
      exact hb
    | false =>
      simp only [hb, Bool.false_eq_true, if_false] at h ⊢
      have hge := simAux_survival_ge hc pr ws _ _ (t + 1) (t + k) h
      obtain ⟨m, rfl⟩ : ∃ m, k = m + 1 := ⟨k - 1, by omega⟩
      have h' : (simAux hc pr (step hc pr (A, L) w).1 (step hc pr (A, L) w).2
          (t + 1) ws).2 = some ((t + 1) + m) := by
        rw [h]; congr 1; omega
      obtain ⟨hk, hlen, hbr, hpre⟩ := ih _ _ _ _ h'
      refine ⟨by simpa using Nat.succ_lt_succ hk, by simp [hlen], ?_, ?_⟩
      · rw [breachAt_shift hc pr (A, L) w ws (m + 1) (by omega)]
        exact hbr
      · intro s hs1 hs2
        match s, hs1 with
        | 1, _ => rw [breachAt_one]; exact hb
        | (n + 2), _ =>
          rw [breachAt_shift hc pr (A, L) w ws (n + 1) (by omega)]
          exact hpre (n + 1) (by omega) (by omega)

theorem simAux_getD (hc : HaircutTable) (pr : List AssetCat) :
    ∀ (ws : List ℚ) (A : AssetBook) (L : LiabilityBook) (t i : ℕ),
      i < (simAux hc pr A L t ws).1.length →
      (simAux hc pr A L t ws).1.getD i dfltSnap =
        mkSnap (stateAfter hc pr (A, L) ws (i + 1)).1
          (stateAfter hc pr (A, L) ws (i + 1)).2 := by
  intro ws
  induction ws with
  | nil => intro A L t i h; simp [simAux] at h
  | cons w ws ih =>
    intro A L t i hi
    rw [simAux] at hi ⊢
    cases hb : breachB hc (step hc pr (A, L) w) w with
    | true =>
      simp only [hb, if_true] at hi ⊢
      have hi0 : i = 0 := by simp at hi; omega
      subst hi0
      rw [stateAfter_cons, stateAfter_zero]
      rfl
    | false =>
      simp only [hb, Bool.false_eq_true, if_false] at hi ⊢
      cases i with
      | zero =>
        rw [stateAfter_cons, stateAfter_zero]
        rfl
      | succ m =>
        rw [List.getD_cons_succ, ih _ _ _ m (by simpa using hi), stateAfter_cons]

theorem simulate_history_getD (hc : HaircutTable) (pr : List AssetCat)
    (A0 : AssetBook) (L0 : LiabilityBook) (ws : List ℚ) :
    ∀ i, i < (simulate hc pr A0 L0 ws).history.length →
      (simulate hc pr A0 L0 ws).history.getD i dfltSnap =
        mkSnap (stateAfter hc pr (A0, L0) ws i).1 (stateAfter hc pr (A0, L0) ws i).2 := by
  intro i hi
  cases i with
  | zero => rfl
  | succ m =>
    simp only [simulate, List.getD_cons_succ, List.length_cons] at hi ⊢
    exact simAux_getD hc pr ws A0 L0 1 m (by omega)

theorem mkSnap_getAsset (A : AssetBook) (L : LiabilityBook) (c : AssetCat) :
    (mkSnap A L).getAsset c = A.get c := by
  cases c <;> rfl

theorem simAux_nonneg (hc : HaircutTable) (pr : List AssetCat) :
    ∀ (ws : List ℚ) (A : AssetBook) (L : LiabilityBook) (t : ℕ), A.nonneg →
      ∀ snap ∈ (simAux hc pr A L t ws).1,
        0 ≤ snap.Cash ∧ 0 ≤ snap.HQLA ∧ 0 ≤ snap.Loans ∧ 0 ≤ snap.RealEstate := by
  intro ws
  induction ws with
  | nil => intro A L t _ snap h; simp [simAux] at h
  | cons w ws ih =>
    intro A L t hA snap hmem
    rw [simAux] at hmem
    have hA' : ((liquidate hc A w pr).1).nonneg := liquidate_nonneg hc pr A w hA
    cases hb : breachB hc (step hc pr (A, L) w) w with
    | true =>
      simp only [hb, if_true, List.mem_singleton] at hmem
      subst hmem
      exact hA'
    | false =>
      simp only [hb, Bool.false_eq_true, if_false, List.mem_cons] at hmem
      rcases hmem with rfl | hmem
      · exact hA'
      · exact ih _ _ _ hA' snap hmem

theorem simAux_frame (hc : HaircutTable) (pr : List AssetCat) (c : AssetCat)
    (hnc : c ∉ pr) :
    ∀ (ws : List ℚ) (A : AssetBook) (L : LiabilityBook) (t : ℕ),
      ∀ snap ∈ (simAux hc pr A L t ws).1, snap.getAsset c = A.get c := by
  intro ws
  induction ws with
  | nil => intro A L t snap h; simp [simAux] at h
  | cons w ws ih =>
    intro A L t snap hmem
    rw [simAux] at hmem
    have hfr : ((liquidate hc A w pr).1).get c = A.get c :=
      liquidate_frame hc c pr A w hnc
    cases hb : breachB hc (step hc pr (A, L) w) w with
    | true =>
      simp only [hb, if_true, List.mem_singleton] at hmem
      subst hmem
      rw [mkSnap_getAsset]
      exact hfr
    | false =>
      simp only [hb, Bool.false_eq_true, if_false, List.mem_cons] at hmem
      rcases hmem with rfl | hmem
      · rw [mkSnap_getAsset]; exact hfr
      · exact (ih _ _ _ snap hmem).trans hfr

/-! ### Claim theorems -/

/-- Claim C1: the liquidation loop visits the asset categories in priority
order, stops as soon as the remaining need is at most 0, and for each visited
category sells `min(available, need/(1-haircut))`, removing the sold quantity
from that category and the net proceeds `sell*(1-haircut)` from the need. -/
theorem liquidate_loop_characterization (hc : HaircutTable) (A : AssetBook)
    (need : ℚ) (a : AssetCat) (rest : List AssetCat) :
    liquidate hc A need [] = (A, need) ∧
    liquidate hc A need (a :: rest) =
      (if need ≤ 0 then (A, need)
       else
         liquidate hc (A.set a (A.get a - min (A.get a) (need / (1 - hc.get a))))
           (need - min (A.get a) (need / (1 - hc.get a)) * (1 - hc.get a)) rest) := by
  exact ⟨rfl, by rw [liquidate]⟩

/-- Claim C2: from any running state whose asset book is non-negative, the
baseline simulation marks the survival period at the current period index iff,
after the liquidation of that period, equity is at most 0, or the LCR is
below 1, or total assets are at most 0.  On non-negative books the third
disjunct forces the LCR to 0, which is why line 128 of the source tests only
the first two. -/
theorem survival_trigger_iff_spec_breach (hc : HaircutTable) (pr : List AssetCat)
    (A : AssetBook) (L : LiabilityBook) (t : ℕ) (w : ℚ) (ws : List ℚ)
    (hA : A.nonneg) :
    (simAux hc pr A L t (w :: ws)).2 = some t ↔
      (equity (step hc pr (A, L) w).1 (step hc pr (A, L) w).2 ≤ 0 ∨
       LCR hc (step hc pr (A, L) w).1 w < 1 ∨
       totalAssets (step hc pr (A, L) w).1 ≤ 0) := by
  rw [simAux]
  cases hb : breachB hc (step hc pr (A, L) w) w with
  | true =>
    simp only [hb, if_true]
    simp only [breachB, decide_eq_true_eq] at hb
    constructor
    · intro _
      rcases hb with h | h
      · exact Or.inl h
      · exact Or.inr (Or.inl h)
    · intro _
      trivial
  | false =>
    simp only [hb, Bool.false_eq_true, if_false]
    simp only [breachB, decide_eq_false_iff_not] at hb
    push_neg at hb
    obtain ⟨he, hl⟩ := hb
    constructor
    · intro hsome
      have := simAux_survival_ge hc pr ws _ _ (t + 1) t hsome
      omega
    · intro hcond
      exfalso
      rcases hcond with h | h | h
      · linarith
      · linarith
      · have hstep : (step hc pr (A, L) w).1 = (liquidate hc A w pr).1 := rfl
        rw [hstep] at h hl
        obtain ⟨c1, c2, c3, c4⟩ := liquidate_nonneg hc pr A w hA
        have hzero : LCR hc (liquidate hc A w pr).1 w = 0 := by
          unfold totalAssets at h
          have hc0 : (liquidate hc A w pr).1.Cash = 0 := le_antisymm (by linarith) c1
          have hh0 : (liquidate hc A w pr).1.HQLA = 0 := le_antisymm (by linarith) c2
          unfold LCR
          rw [hc0, hh0]
          simp
        linarith

/-- Claim C3: in every period, closing total assets equal opening total assets
minus the realized haircut loss of the liquidation pass minus the net cash
paid out to depositors (the withdrawal less any unmet remainder of the need). -/
theorem period_asset_conservation (hc : HaircutTable) (pr : List AssetCat)
    (A : AssetBook) (L : LiabilityBook) (w : ℚ) :
    totalAssets (step hc pr (A, L) w).1 =
      totalAssets A - liqLoss hc A w pr - (w - (liquidate hc A w pr).2) :=
  liquidate_total hc pr A w

/-- Claim C4: starting from a non-negative opening book, with haircuts in
`[0,1)` and non-negative withdrawals, every snapshot of the run keeps all four
asset quantities non-negative - liquidation is capped at the available
balance. -/
theorem asset_quantities_stay_nonneg (hc : HaircutTable) (pr : List AssetCat)
    (A0 : AssetBook) (L0 : LiabilityBook) (ws : List ℚ)
    (hA0 : A0.nonneg)
    (hhc : ∀ c, 0 ≤ hc.get c ∧ hc.get c < 1)
    (hws : ∀ w ∈ ws, 0 ≤ w) :
    ∀ snap ∈ (simulate hc pr A0 L0 ws).history,
      0 ≤ snap.Cash ∧ 0 ≤ snap.HQLA ∧ 0 ≤ snap.Loans ∧ 0 ≤ snap.RealEstate := by
  intro snap hmem
  simp only [simulate, List.mem_cons] at hmem
  rcases hmem with rfl | hmem
  · exact hA0
  · exact simAux_nonneg hc pr ws A0 L0 1 hA0 snap hmem

/-- Claim C5: an asset category absent from the liquidation priority list is
never liquidated - its entry is the same in every snapshot of the run as in
the opening book. -/
theorem absent_category_never_liquidated (hc : HaircutTable) (pr : List AssetCat)
    (A0 : AssetBook) (L0 : LiabilityBook) (ws : List ℚ) (c : AssetCat)
    (hnc : c ∉ pr) :
    ∀ snap ∈ (simulate hc pr A0 L0 ws).history, snap.getAsset c = A0.get c := by
  intro snap hmem
  simp only [simulate, List.mem_cons] at hmem
  rcases hmem with rfl | hmem
  · exact mkSnap_getAsset A0 L0 c
  · exact simAux_frame hc pr c hnc ws A0 L0 1 snap hmem

/-- Claim C6, counterexample: under scenario A the baseline run breaches
within the three periods - the survival period is 3, where the LCR has fallen
to 1/3. -/
theorem scenarioA_breaches_at_period_three :
    (simulate scnA_haircuts scnA_priority scnA_assets scnA_liabs
        scnA_withdrawals).survival = some 3 ∧
    LCR scnA_haircuts
        (stateAfter scnA_haircuts scnA_priority (scnA_assets, scnA_liabs)
          scnA_withdrawals 3).1 120 < 1 := by
  norm_num [simulate, simAux, step, liquidate, breachB, equity, LCR, totalAssets,
    totalLiabilities, mkSnap, stateAfter, scnA_assets, scnA_liabs, scnA_haircuts,
    scnA_priority, scnA_withdrawals, AssetBook.get, AssetBook.set, HaircutTable.get,
    min_def, max_def]

/-- Claim C6, amended: in scenario A, period 1 is covered entirely by Cash
(100 to 50, the other assets unchanged) with Deposits 600 to 550 and equity
unchanged at 150; equity stays positive in every recorded period, but the LCR
falls below 1 at period 3, so the baseline run breaches at period 3. -/
theorem scenarioA_run_facts :
    (simulate scnA_haircuts scnA_priority scnA_assets scnA_liabs
        scnA_withdrawals).history.getD 0 dfltSnap =
      ⟨100, 200, 400, 200, 600, 150, 150⟩ ∧
    (simulate scnA_haircuts scnA_priority scnA_assets scnA_liabs
        scnA_withdrawals).history.getD 1 dfltSnap =
      ⟨50, 200, 400, 200, 550, 150, 150⟩ ∧
    (∀ snap ∈ (simulate scnA_haircuts scnA_priority scnA_assets scnA_liabs
        scnA_withdrawals).history, 0 < snap.Equity) ∧
    (simulate scnA_haircuts scnA_priority scnA_assets scnA_liabs
        scnA_withdrawals).survival = some 3 := by
  norm_num [simulate, simAux, step, liquidate, breachB, equity, LCR, totalAssets,
    totalLiabilities, mkSnap, scnA_assets, scnA_liabs, scnA_haircuts, scnA_priority,
    scnA_withdrawals, AssetBook.get, AssetBook.set, HaircutTable.get, min_def, max_def,
    List.forall_mem_cons]

/-- Claim C8: on an empty withdrawal sequence the simulation is a single
Period 0 snapshot carrying the opening books and opening equity, with a null
survival period. -/
theorem empty_run_single_snapshot (hc : HaircutTable) (pr : List AssetCat)
    (A0 : AssetBook) (L0 : LiabilityBook) :
    simulate hc pr A0 L0 [] =
      ⟨[⟨A0.Cash, A0.HQLA, A0.Loans, A0.RealEstate, L0.Deposits, L0.Wholesale,
         equity A0 L0⟩], none⟩ :=
  rfl

/-- Claim C7: if the survival period is `t`, then `t` falls within the
withdrawal sequence, the trigger fires at period `t` and at no earlier
period, and exactly the snapshots of Periods 0..t are produced (no later
withdrawal is applied); if the survival period is null, no period triggers
and every withdrawal of the sequence is processed. -/
theorem survival_truncation (hc : HaircutTable) (pr : List AssetCat)
    (A0 : AssetBook) (L0 : LiabilityBook) (ws : List ℚ) :
    (∀ t, (simulate hc pr A0 L0 ws).survival = some t →
        1 ≤ t ∧ t ≤ ws.length ∧
        (simulate hc pr A0 L0 ws).history.length = t + 1 ∧
        breachAt hc pr (A0, L0) ws t = true ∧
        ∀ s, 1 ≤ s → s < t → breachAt hc pr (A0, L0) ws s = false) ∧
    ((simulate hc pr A0 L0 ws).survival = none →
        (simulate hc pr A0 L0 ws).history.length = ws.length + 1 ∧
        ∀ s, 1 ≤ s → s ≤ ws.length → breachAt hc pr (A0, L0) ws s = false) := by
  constructor
  · intro t hsome
    have hsome' : (simAux hc pr A0 L0 1 ws).2 = some t := hsome
    have h1 : 1 ≤ t := simAux_survival_ge hc pr ws A0 L0 1 t hsome'
    obtain ⟨k, rfl⟩ : ∃ k, t = 1 + k := ⟨t - 1, by omega⟩
    obtain ⟨hk, hlen, hbr, hpre⟩ := simAux_some hc pr ws A0 L0 1 k hsome'
    refine ⟨h1, by omega, ?_, ?_, ?_⟩
    · simp only [simulate, List.length_cons, hlen]
      omega
    · have he : 1 + k = k + 1 := by omega
      rw [he]
      exact hbr
    · intro s hs1 hs2
      exact hpre s hs1 (by omega)
  · intro hnone
    have hnone' : (simAux hc pr A0 L0 1 ws).2 = none := hnone
    obtain ⟨hlen, hbr⟩ := simAux_none hc pr ws A0 L0 1 hnone'
    refine ⟨?_, hbr⟩
    simp only [simulate, List.length_cons, hlen]

/-- Claim C9: across every period of any run, Wholesale is never modified and
Deposits fall by exactly the withdrawal of that period - unconditionally, at
the level of the period step, and between consecutive snapshots of the
recorded history. -/
theorem liabilities_frame (hc : HaircutTable) (pr : List AssetCat)
    (A0 : AssetBook) (L0 : LiabilityBook) (ws : List ℚ) :
    (∀ (A : AssetBook) (L : LiabilityBook) (w : ℚ),
        (step hc pr (A, L) w).2.Deposits = L.Deposits - w ∧
        (step hc pr (A, L) w).2.Wholesale = L.Wholesale) ∧
    (∀ i, i + 1 < (simulate hc pr A0 L0 ws).history.length → i < ws.length →
        ((simulate hc pr A0 L0 ws).history.getD (i + 1) dfltSnap).Deposits =
          ((simulate hc pr A0 L0 ws).history.getD i dfltSnap).Deposits - ws.getD i 0 ∧
        ((simulate hc pr A0 L0 ws).history.getD (i + 1) dfltSnap).Wholesale =
          ((simulate hc pr A0 L0 ws).history.getD i dfltSnap).Wholesale) := by
  constructor
  · intro A L w
    exact ⟨rfl, rfl⟩
  · intro i hi hiw
    rw [simulate_history_getD hc pr A0 L0 ws (i + 1) hi,
        simulate_history_getD hc pr A0 L0 ws i (by omega),
        stateAfter_succ hc pr ws (A0, L0) i hiw]
    exact ⟨rfl, rfl⟩

/-- Claim C10: when the run breaches at period `t`, the snapshot of the
breaching period is still recorded: the history holds exactly `t+1`
snapshots (Periods 0..t) and the one at index `t` is the closing balance
sheet of period `t`. -/
theorem breach_snapshot_recorded (hc : HaircutTable) (pr : List AssetCat)
    (A0 : AssetBook) (L0 : LiabilityBook) (ws : List ℚ) (t : ℕ)
    (hsome : (simulate hc pr A0 L0 ws).survival = some t) :
    (simulate hc pr A0 L0 ws).history.length = t + 1 ∧
    (simulate hc pr A0 L0 ws).history.getD t dfltSnap =
      mkSnap (stateAfter hc pr (A0, L0) ws t).1 (stateAfter hc pr (A0, L0) ws t).2 := by
  have hsome' : (simAux hc pr A0 L0 1 ws).2 = some t := hsome
  have h1 : 1 ≤ t := simAux_survival_ge hc pr ws A0 L0 1 t hsome'
  obtain ⟨k, rfl⟩ : ∃ k, t = 1 + k := ⟨t - 1, by omega⟩
  obtain ⟨hk, hlen, hbr, hpre⟩ := simAux_some hc pr ws A0 L0 1 k hsome'
  have hlen' : (simulate hc pr A0 L0 ws).history.length = (1 + k) + 1 := by
    simp only [simulate, List.length_cons, hlen]
    omega
  exact ⟨hlen', simulate_history_getD hc pr A0 L0 ws (1 + k) (by omega)⟩

/-! ### Witnesses at concrete inputs -/

/-- Witness for C2: one period with a withdrawal of 10000 against the books of
scenario A. -/
theorem survival_trigger_iff_spec_breach_witness :
    ((simAux scnA_haircuts scnA_priority scnA_assets scnA_liabs 1 [10000]).2 = some 1 ↔
      (equity (step scnA_haircuts scnA_priority (scnA_assets, scnA_liabs) 10000).1
          (step scnA_haircuts scnA_priority (scnA_assets, scnA_liabs) 10000).2 ≤ 0 ∨
       LCR scnA_haircuts
          (step scnA_haircuts scnA_priority (scnA_assets, scnA_liabs) 10000).1 10000 < 1 ∨
       totalAssets (step scnA_haircuts scnA_priority (scnA_assets, scnA_liabs) 10000).1 ≤ 0)) :=
  survival_trigger_iff_spec_breach scnA_haircuts scnA_priority scnA_assets scnA_liabs 1 10000 []
    (by norm_num [AssetBook.nonneg, scnA_assets])

/-- Witness for C4: the hypotheses hold for scenario A and the Period 0
snapshot of its run is non-negative. -/
theorem asset_quantities_stay_nonneg_witness :
    0 ≤ (mkSnap scnA_assets scnA_liabs).Cash ∧
    0 ≤ (mkSnap scnA_assets scnA_liabs).HQLA ∧
    0 ≤ (mkSnap scnA_assets scnA_liabs).Loans ∧
    0 ≤ (mkSnap scnA_assets scnA_liabs).RealEstate :=
  asset_quantities_stay_nonneg scnA_haircuts scnA_priority scnA_assets scnA_liabs
    scnA_withdrawals
    (by norm_num [AssetBook.nonneg, scnA_assets])
    (by intro c; cases c <;> norm_num [HaircutTable.get, scnA_haircuts])
    (by norm_num [scnA_withdrawals, List.forall_mem_cons])
    (mkSnap scnA_assets scnA_liabs) (List.mem_cons_self _ _)

/-- Witness for C5: with priority restricted to Cash, the HQLA entry of a
snapshot of the run equals the opening HQLA. -/
theorem absent_category_never_liquidated_witness :
    (mkSnap scnA_assets scnA_liabs).getAsset AssetCat.HQLA =
      scnA_assets.get AssetCat.HQLA :=
  absent_category_never_liquidated scnA_haircuts [AssetCat.Cash] scnA_assets scnA_liabs
    [50, 80] AssetCat.HQLA (by decide)
    (mkSnap scnA_assets scnA_liabs) (List.mem_cons_self _ _)

/-- Witness for C7: scenario A breaches at period 3, its history holds four
snapshots, the trigger fires at period 3 and not at periods 1 or 2. -/
theorem survival_truncation_witness :
    1 ≤ 3 ∧ 3 ≤ scnA_withdrawals.length ∧
    (simulate scnA_haircuts scnA_priority scnA_assets scnA_liabs
        scnA_withdrawals).history.length = 3 + 1 ∧
    breachAt scnA_haircuts scnA_priority (scnA_assets, scnA_liabs)
        scnA_withdrawals 3 = true ∧
    breachAt scnA_haircuts scnA_priority (scnA_assets, scnA_liabs)
        scnA_withdrawals 1 = false ∧
    breachAt scnA_haircuts scnA_priority (scnA_assets, scnA_liabs)
        scnA_withdrawals 2 = false := by
  have h := (survival_truncation scnA_haircuts scnA_priority scnA_assets scnA_liabs
      scnA_withdrawals).1 3
    (by norm_num [simulate, simAux, step, liquidate, breachB, equity, LCR, totalAssets,
      totalLiabilities, mkSnap, scnA_assets, scnA_liabs, scnA_haircuts, scnA_priority,
      scnA_withdrawals, AssetBook.get, AssetBook.set, HaircutTable.get, min_def, max_def])
  exact ⟨h.1, h.2.1, h.2.2.1, h.2.2.2.1, h.2.2.2.2 1 (by omega) (by omega),
    h.2.2.2.2 2 (by omega) (by omega)⟩

/-- Witness for C9: in scenario A the Period 1 snapshot has Deposits lower by
the first withdrawal and the same Wholesale as Period 0. -/
theorem liabilities_frame_witness :
    ((simulate scnA_haircuts scnA_priority scnA_assets scnA_liabs
        scnA_withdrawals).history.getD 1 dfltSnap).Deposits =
      ((simulate scnA_haircuts scnA_priority scnA_assets scnA_liabs
        scnA_withdrawals).history.getD 0 dfltSnap).Deposits -
        scnA_withdrawals.getD 0 0 ∧
    ((simulate scnA_haircuts scnA_priority scnA_assets scnA_liabs
        scnA_withdrawals).history.getD 1 dfltSnap).Wholesale =
      ((simulate scnA_haircuts scnA_priority scnA_assets scnA_liabs
        scnA_withdrawals).history.getD 0 dfltSnap).Wholesale :=
  (liabilities_frame scnA_haircuts scnA_priority scnA_assets scnA_liabs
      scnA_withdrawals).2 0
    (by norm_num [simulate, simAux, step, liquidate, breachB, equity, LCR, totalAssets,
      totalLiabilities, mkSnap, scnA_assets, scnA_liabs, scnA_haircuts, scnA_priority,
      scnA_withdrawals, AssetBook.get, AssetBook.set, HaircutTable.get, min_def, max_def])
    (by norm_num [scnA_withdrawals])

/-- Witness for C10: the scenario A run breaches at period 3 and its history
ends with the closing snapshot of period 3. -/
theorem breach_snapshot_recorded_witness :
    (simulate scnA_haircuts scnA_priority scnA_assets scnA_liabs
        scnA_withdrawals).history.length = 3 + 1 ∧
    (simulate scnA_haircuts scnA_priority scnA_assets scnA_liabs
        scnA_withdrawals).history.getD 3 dfltSnap =
      mkSnap
        (stateAfter scnA_haircuts scnA_priority (scnA_assets, scnA_liabs)
          scnA_withdrawals 3).1
        (stateAfter scnA_haircuts scnA_priority (scnA_assets, scnA_liabs)
          scnA_withdrawals 3).2 :=
  breach_snapshot_recorded scnA_haircuts scnA_priority scnA_assets scnA_liabs
    scnA_withdrawals 3
    (by norm_num [simulate, simAux, step, liquidate, breachB, equity, LCR, totalAssets,
      totalLiabilities, mkSnap, scnA_assets, scnA_liabs, scnA_haircuts, scnA_priority,
      scnA_withdrawals, AssetBook.get, AssetBook.set, HaircutTable.get, min_def, max_def])
